import Mathlib

/-!
Shallow embedding of the `hfs_api` client (source files `src/hfs_api/api.py`,
`src/hfs_api/_file_walk.py`, `src/hfs_api/HFSPath.py`, `src/hfs_api/_exceptions.py`).

A POSIX path string is modelled by its list of `/`-separated components,
exactly what `s.split('/')` returns in Python: an absolute path starts with
the component `""`, a trailing slash ends with `""`.  `renderPath` is
`'/'.join`, the exact inverse of the split.  The `os.path` functions the
client calls (`normpath`, `join`, `relpath`, `dirname`, `basename`) are
embedded component-wise below, following the CPython `posixpath`
implementations (the client always runs them with `os.sep = '/'` semantics:
every result is passed through `.replace(os.sep, '/')`).
-/

namespace HfsApi

/-- `'/'.join` on components: renders a component list back to a path string. -/
def renderPath : List String → String
| [] => ""
| [s] => s
| s :: rest => s ++ "/" ++ renderPath rest

/-- Whether the component list denotes a string starting with `/`: at least
two components and an empty first one. -/
def startsSlash : List String → Bool
| a :: _ :: _ => a == ""
| _ => false

/-- A string starting with `//`: at least three components, first two empty. -/
def startsSlash2 : List String → Bool
| a :: b :: _ :: _ => a == "" && b == ""
| _ => false

/-- A string starting with `///`: at least four components, first three empty. -/
def startsSlash3 : List String → Bool
| a :: b :: c :: _ :: _ => a == "" && b == "" && c == ""
| _ => false

/-- Number of leading slashes that `posixpath.normpath` preserves: one leading
slash stays one, exactly two stay two (POSIX special case), three or more
collapse to one. -/
def leadSlashes (p : List String) : Nat :=
  if startsSlash p then (if startsSlash2 p && !startsSlash3 p then 2 else 1) else 0

/-- One step of the component loop of `posixpath.normpath`: skip `""` and
`"."`; append a normal component; append `".."` at the start of a relative
path or after another `".."`; otherwise pop the previous component. -/
def normStep (isAbs : Bool) (acc : List String) (comp : String) : List String :=
  if comp = "" ∨ comp = "." then acc
  else if comp ≠ ".." ∨ (¬isAbs ∧ acc = []) ∨ acc.getLast? = some ".." then acc ++ [comp]
  else acc.dropLast

/-- The component loop of `posixpath.normpath` over the whole split list
(empty components are skipped by `normStep` anyway). -/
def normBody (isAbs : Bool) (p : List String) : List String :=
  p.foldl (normStep isAbs) []

/-- `posixpath.normpath` on a component list. -/
def normpath (p : List String) : List String :=
  let s := leadSlashes p
  let nc := normBody (s != 0) p
  if s = 0 then (if nc = [] then ["."] else nc)
  else List.replicate s "" ++ (if nc = [] then [""] else nc)

/-- A normal path segment: nonempty and not a `.` or `..` marker. -/
def cleanSeg (s : String) : Prop := s ≠ "" ∧ s ≠ "." ∧ s ≠ ".."

instance (s : String) : Decidable (cleanSeg s) :=
  inferInstanceAs (Decidable (s ≠ "" ∧ s ≠ "." ∧ s ≠ ".."))

/-- `posixpath.join a b`: an absolute second argument replaces the first; a
first argument that is the empty string or ends with a slash is concatenated
directly; otherwise a separator is inserted. -/
def pjoin (a b : List String) : List String :=
  if startsSlash b then b
  else if a.getLast? = some "" then a.dropLast ++ b
  else a ++ b

/-- `posixpath.abspath` with an explicit working directory `cwd` (the code's
`os.getcwd()`): a relative path is joined onto `cwd`, then normalized; an
absolute path is normalized as is (`pjoin` already ignores `cwd` then). -/
def abspath (cwd p : List String) : List String := normpath (pjoin cwd p)

/-- Length of the longest common prefix of two component lists
(`os.path.commonprefix` on lists, as used by `posixpath.relpath`). -/
def commonPrefixLen : List String → List String → Nat
| a :: as, b :: bs => if a = b then commonPrefixLen as bs + 1 else 0
| _, _ => 0

/-- `posixpath.relpath p start` with an explicit working directory: compares
the slash-free components of the two absolute forms and prefixes one `".."`
per non-shared component of `start`. -/
def relpath (cwd p start : List String) : List String :=
  let pl := (abspath cwd p).filter (· ≠ "")
  let sl := (abspath cwd start).filter (· ≠ "")
  let i := commonPrefixLen sl pl
  let rel := List.replicate (sl.length - i) ".." ++ pl.drop i
  if rel = [] then ["."] else rel

/-- Trailing empty components removed: `rstrip('/')` on the rendered string. -/
def dropTrailingEmpty (l : List String) : List String :=
  (l.reverse.dropWhile (· = "")).reverse

/-- `posixpath.dirname` on a component list: everything before the last slash,
with trailing slashes stripped unless the head is all slashes. -/
def dirname (p : List String) : List String :=
  if p.length ≤ 1 then [""]
  else if p.dropLast.all (· = "") then p.dropLast ++ [""]
  else dropTrailingEmpty p.dropLast

/-- `posixpath.basename` on a component list: everything after the last slash. -/
def basename (p : List String) : String := p.getLastD ""

/-- `str.removeprefix('/')`, as applied to `remote_root` in `HFS._upload_file`:
drops one leading slash if present. -/
def dropLeadSlash (p : List String) : List String :=
  if startsSlash p then p.tail else p

/-- One value of the `details` array returned by `/~/api/get_file_details`.
Per the comment in `HFS.exists`, it "may be None, False or non-null object". -/
inductive DetailVal
| null
| bool (b : Bool)
| obj (fields : List (String × String))
deriving DecidableEq, Repr

/-- The Python comparison `json_response["details"][0] != False` in
`HFS.exists` (line 353 of `api.py`): only the boolean `False` compares equal
to `False`; `None` and any object compare unequal. -/
def detailNeFalse : DetailVal → Bool
| .bool false => false
| _ => true

/-- `json_response["details"][0] != False` including the indexing: `[0]` on an
empty array raises (modelled as `none`). -/
def existsResponse (details : List DetailVal) : Option Bool :=
  details.head?.map detailNeFalse

/-- The local filesystem as the `os` / `open` calls see it.  Paths are keyed
by their component lists (`renderPath` is injective on split representations,
so this is the same keying as by strings). -/
structure LocalFS where
  pathExists : List String → Bool
  isFile : List String → Bool
  isDir : List String → Bool
  size : List String → Nat
  content : List String → List Nat

/-- The body handed to `requests.put` in `HFS._upload_file`: either the whole
file content read into memory (`f.read()`), or a streaming multipart encoding
of the single field `{"file": ("filename", f)}`. -/
inductive UploadBody
| raw (content : List Nat)
| multipart (field : String) (filename : String)
deriving DecidableEq, Repr

/-- One `requests.put` call of `HFS._upload_file`.  `urlPath` is the
component list of the URL (the code renders it and appends
`"?existing=" ++ existing`); `headers` are the explicitly passed headers —
neither branch of `_upload_file` passes any. -/
structure PutRequest where
  urlPath : List String
  existing : String
  headers : List (String × String)
  body : UploadBody
deriving DecidableEq, Repr

/-- A remote interaction issued during a run. -/
inductive REvent
| existsCheck (path : List String) (result : Bool)
| createReq (root : List String) (name : String)
| putReq (req : PutRequest) (status : Nat)
deriving DecidableEq, Repr

/-- Errors raised by the client during upload runs (`FileNotFoundError`,
`IsADirectoryError`, `NotADirectoryError`, `ValueError`, `AuthorizationFailed`,
and the `TypeError` raised by the positional `cookies` argument in
`HFS._upload_folder`, see `typeErrorCreateFolderCall`). -/
inductive RunErr
| fileNotFound
| isADirectory
| notADirectory
| valueError
| typeError
| authorizationFailed
deriving DecidableEq, Repr

/-- Modelled from the spec: the module `hfs_api/_constants.py` defining
`UploadMode` is imported by `api.py` but is not among the source files; §3 of
the spec gives "ConflictPolicy: enumeration {Skip, Overwrite}" and the upload
URL carries the policy value as the `existing` query parameter. -/
inductive UploadMode
| skip
| overwrite
deriving DecidableEq, Repr

/-- Modelled from the spec: the string carried by the `value` attribute of an
`UploadMode` member. -/
def UploadMode.value : UploadMode → String
| .skip => "skip"
| .overwrite => "overwrite"

/-- The remote endpoints as one sync run sees them: the first element of the
`details` array that `get_file_details` answers for a path, and the status
code that a `PUT` upload returns. -/
structure Env where
  detail : List String → DetailVal
  put : PutRequest → Nat

/-- `HFS.exists`: POSTs `{"uris": [path]}` to `get_file_details` and returns
`details[0] != False`.  Every call issues exactly one remote check (the
method has no cache); the returned trace is that single check. -/
def existsModel (env : Env) (path : List String) : Bool × List REvent :=
  (detailNeFalse (env.detail path), [.existsCheck path (detailNeFalse (env.detail path))])

/-- `HFS.create_folder`: normalizes the path, splits it into components, and
for every component `i` issues one `create_folder` request with
`root = os.path.join('/', *components[:i])` and `name = components[i]` —
unconditionally, with no existence check. -/
def createFolderRequests (folder_name : List String) : List (List String × String) :=
  let comps := normpath folder_name
  (List.range comps.length).map fun i =>
    ((comps.take i).foldl (fun a c => pjoin a [c]) ["", ""], comps.getD i "")

/-- The upload URL of `HFS._upload_file` as a component list:
`os.path.join(f"https://{domain}", remote_root.removeprefix('/'),
os.path.basename(local_path))` — note `"https://" ++ domain` splits on `/`
into `["https:", "", domain]`. -/
def uploadUrlFor (domain : String) (remote_root local_path : List String) : List String :=
  pjoin (pjoin ["https:", "", domain] (dropLeadSlash remote_root)) [basename local_path]

/-- The strategy `HFS._upload_file` picks for the transfer. -/
inductive Strategy
| inMemory
| streamed
deriving DecidableEq, Repr

/-- `file_size_threshold = 1024 * 1024  # 1 MB` in `HFS._upload_file`. -/
def fileSizeThreshold : Nat := 1024 * 1024

/-- The one `requests.put` call `HFS._upload_file` issues once its local
preconditions pass: below the size threshold the body is the whole content
read into memory, at or above it the body is the streaming multipart
encoding; URL, conflict directive and (absent) explicit headers are built
before the branch and are the same in both. -/
def uploadReqOf (fs : LocalFS) (domain : String)
    (local_path remote_root : List String) (ex : String) : PutRequest :=
  if fs.size local_path < fileSizeThreshold then
    ⟨uploadUrlFor domain remote_root local_path, ex, [], .raw (fs.content local_path)⟩
  else
    ⟨uploadUrlFor domain remote_root local_path, ex, [], .multipart "file" "filename"⟩

/-- The transfer strategy `HFS._upload_file` picks:
`file_size < file_size_threshold` reads the file into memory, otherwise it
streams with progress. -/
def strategyOf (fs : LocalFS) (local_path : List String) : Strategy :=
  if fs.size local_path < fileSizeThreshold then .inMemory else .streamed

/-- `HFS._upload_file`: local precondition checks (missing file, directory,
bad `exists` value) run before any request is built; then the URL is built,
the strategy is chosen by `file_size < file_size_threshold`, one `PUT` is
issued, and a 401 response raises `AuthorizationFailed` (after the request
was already sent, so its event stays in the trace). -/
def uploadFileM (env : Env) (fs : LocalFS) (domain : String)
    (local_path remote_root : List String) (ex : String) :
    List REvent × Except RunErr (PutRequest × Strategy × Nat) :=
  if ¬ fs.pathExists local_path then ([], .error .fileNotFound)
  else if ¬ fs.isFile local_path then ([], .error .isADirectory)
  else if ¬ (ex = UploadMode.overwrite.value ∨ ex = UploadMode.skip.value) then
    ([], .error .valueError)
  else if env.put (uploadReqOf fs domain local_path remote_root ex) = 401 then
    ([.putReq (uploadReqOf fs domain local_path remote_root ex)
        (env.put (uploadReqOf fs domain local_path remote_root ex))],
      .error .authorizationFailed)
  else
    ([.putReq (uploadReqOf fs domain local_path remote_root ex)
        (env.put (uploadReqOf fs domain local_path remote_root ex))],
      .ok (uploadReqOf fs domain local_path remote_root ex, strategyOf fs local_path,
        env.put (uploadReqOf fs domain local_path remote_root ex)))

/-- The position of the `tqdm` bar after each `MultipartEncoderMonitor`
callback `bar.update(monitor.bytes_read - bar.n)`, starting from position
`n`: each callback adds `bytes_read - n` (natural subtraction: Python's
`tqdm` clamps negative updates the same way the cumulative reads make them
impossible). -/
def barTraceFrom (n : Nat) : List Nat → List Nat
| [] => []
| r :: rs => (n + (r - n)) :: barTraceFrom (n + (r - n)) rs

/-- The byte-progress positions emitted while streaming, from a fresh bar. -/
def barTrace (reads : List Nat) : List Nat := barTraceFrom 0 reads

/-- The `remote_root` computed by `HFS._upload_folder` (line 529 of `api.py`):
`os.path.join(remote_path, os.path.normpath(local_path).split(os.sep)[-1])`. -/
def remoteRootFor (remote_path local_path : List String) : List String :=
  pjoin remote_path [(normpath local_path).getLastD ""]

/-- The `remote_file` computed per walked file by `HFS._upload_folder`
(line 533): `os.path.normpath(os.path.join(remote_root,
os.path.relpath(local_file, local_path)))`. -/
def remoteFileFor (cwd remote_path local_path local_file : List String) : List String :=
  normpath (pjoin (remoteRootFor remote_path local_path) (relpath cwd local_file local_path))

/-- One item of `_local_walk_gen` (`src/hfs_api/_file_walk.py`): for a walk
root `root` and file name chain below it, the generator yields
`os.path.normpath(os.path.join(root, file))`; composing the `os.walk` joins,
every yielded path is `normpath (pjoin local_path suffix)` for the chain
`suffix` of directory names and the file name under the walk root. -/
def localWalkItem (root suffix : List String) : List String :=
  normpath (pjoin root suffix)

/-- The remote directory `HFS._upload_folder` targets for one walked file:
`os.path.dirname(remote_file)` for the `remote_file` of line 533. -/
def remoteDirFor (cwd local_path remote_root file : List String) : List String :=
  dirname (normpath (pjoin remote_root (relpath cwd file local_path)))

/-- One iteration of the `for local_file in _local_walk_gen(local_path)` loop
of `HFS._upload_folder`: query existence of the file's remote directory; if
it does not exist, the call
`self.create_folder(os.path.dirname(remote_file), cookies)` passes `cookies`
positionally to a keyword-only parameter, so Python raises `TypeError`;
otherwise `_upload_file` runs and any exception it raises propagates. -/
def uploadFolderStep (env : Env) (fs : LocalFS) (domain : String) (ex : String)
    (cwd local_path remote_root : List String) (file : List String) :
    List REvent × Option RunErr :=
  if ¬ (existsModel env (remoteDirFor cwd local_path remote_root file)).1 then
    ((existsModel env (remoteDirFor cwd local_path remote_root file)).2, some .typeError)
  else
    match (uploadFileM env fs domain file (remoteDirFor cwd local_path remote_root file) ex).2 with
    | .error e =>
      ((existsModel env (remoteDirFor cwd local_path remote_root file)).2 ++
        (uploadFileM env fs domain file (remoteDirFor cwd local_path remote_root file) ex).1,
       some e)
    | .ok _ =>
      ((existsModel env (remoteDirFor cwd local_path remote_root file)).2 ++
        (uploadFileM env fs domain file (remoteDirFor cwd local_path remote_root file) ex).1,
       none)

/-- The loop of `HFS._upload_folder` over the walked files: iterations run in
order and any raised exception halts the loop immediately. -/
def uploadFolderRun (env : Env) (fs : LocalFS) (domain : String) (ex : String)
    (cwd local_path remote_root : List String) :
    List (List String) → List REvent × Except RunErr Unit
| [] => ([], .ok ())
| f :: rest =>
  match (uploadFolderStep env fs domain ex cwd local_path remote_root f).2 with
  | some e => ((uploadFolderStep env fs domain ex cwd local_path remote_root f).1, .error e)
  | none =>
    ((uploadFolderStep env fs domain ex cwd local_path remote_root f).1 ++
       (uploadFolderRun env fs domain ex cwd local_path remote_root rest).1,
     (uploadFolderRun env fs domain ex cwd local_path remote_root rest).2)

/-- `HFS._upload_folder`: local preconditions (`os.path.exists`,
`os.path.isdir`) run first, then `remote_root` is computed and the walked
files are processed in order.  The walked file list is a parameter because
`os.walk` is an external effect. -/
def uploadFolderM (env : Env) (fs : LocalFS) (domain : String) (ex : String)
    (cwd local_path remote_path : List String) (files : List (List String)) :
    List REvent × Except RunErr Unit :=
  if ¬ fs.pathExists local_path then ([], .error .fileNotFound)
  else if ¬ fs.isDir local_path then ([], .error .notADirectory)
  else uploadFolderRun env fs domain ex cwd local_path
    (remoteRootFor remote_path local_path) files

/-- One raw entry of the `list` array in a `get_file_list` response, with
every field of uncertain presence optional (`'n'`, `'s'`, `'m'`, `'c'`).
The `'m'` value is kept as its ISO timestamp string
(`datetime.fromisoformat` is applied to it by the code). -/
structure RawEntry where
  n : Option String
  s : Option Nat
  m : Option String
  c : Option String
deriving DecidableEq, Repr

/-- The `HFSPath` dataclass (`src/hfs_api/HFSPath.py`), with `modified_at`
kept as the ISO string handed to `datetime.fromisoformat`. -/
structure HFSPathM where
  name : String
  size : Nat
  modified_at : String
  path : String
  is_directory : Bool
  comment : String
deriving DecidableEq, Repr

/-- Failures of `HFS.list`: a non-200 response raises `APIError`; indexing
`files[i]['m']` on an entry without an `'m'` key raises `KeyError`. -/
inductive ListErr
| apiError (status : Nat)
| keyError
deriving DecidableEq, Repr

/-- The entry loop of `HFS.list` (lines 303–312 of `api.py`): an entry whose
`'n'` is absent (or JSON `null`) is skipped; for a kept entry the code
indexes `files[i]['m']` unconditionally, so an absent `'m'` raises `KeyError`
and fails the whole listing; `'s'` and `'c'` default to `0` and `""`. -/
def parseEntries (path : String) : List RawEntry → Except ListErr (List HFSPathM)
| [] => .ok []
| e :: rest =>
  match e.n with
  | none => parseEntries path rest
  | some name =>
    match e.m with
    | none => .error .keyError
    | some m =>
      match parseEntries path rest with
      | .error err => .error err
      | .ok tail =>
        .ok (⟨name, e.s.getD 0, m, path, name.endsWith "/", e.c.getD ""⟩ :: tail)

/-- `str.removeprefix("data: ")` on one line, the line taken as its
character list: drops the first six characters exactly when they are
`"data: "`, otherwise leaves the line unchanged. -/
def stripDataTag (line : List Char) : List Char :=
  if line.take 6 = "data: ".data then line.drop 6 else line

/-- Line framing of `HFS.list` (line 295 of `api.py`):
`response.text.split('\n')[0].removeprefix("data: ")`.  The response text is
modelled as its list of lines (the result of the `'\n'` split), each line as
its character list. -/
def firstLinePayload (lines : List (List Char)) : List Char :=
  stripDataTag (lines.headD [])

/-- A run of `HFS.exists` calls: each call issues its own remote check and
the traces concatenate (the method consults no cache and writes none). -/
def existsRunTrace (env : Env) (queries : List (List String)) : List REvent :=
  (queries.map fun q => (existsModel env q).2).flatten

/-- Number of occurrences of one creation request in a request list. -/
def countReq (l : List (List String × String)) (r : List String × String) : Nat :=
  l.countP fun x => decide (x = r)

/-- Number of remote existence checks for path `p` in a trace. -/
def countExistsChecks (tr : List REvent) (p : List String) : Nat :=
  tr.countP fun e =>
    match e with
    | .existsCheck q _ => q == p
    | _ => false

example : normpath ["a", "", "b", ".", "c"] = ["a", "b", "c"] := by decide
example : normpath ["", "a", "..", ""] = ["", ""] := by decide
example : normpath [""] = ["."] := by decide
example : normpath ["", "", "a"] = ["", "", "a"] := by decide
example : pjoin ["", "dst"] ["a", "f.txt"] = ["", "dst", "a", "f.txt"] := by decide
example : pjoin ["a", ""] ["b"] = ["a", "b"] := by decide
example : pjoin ["x"] ["", "z"] = ["", "z"] := by decide
example : relpath ["", "home"] ["", "r", "a", "f"] ["", "r"] = ["a", "f"] := by decide
example : dirname ["", "a", "b"] = ["", "a"] := by decide
example : dirname ["", "a"] = ["", ""] := by decide
example : dirname ["a"] = [""] := by decide
example : basename ["", "a", "b.txt"] = "b.txt" := by decide
example : renderPath ["", "dst", "a"] = "/dst/a" := by rfl

lemma countP_eq_one_of_nodup_mem {α : Type _} [DecidableEq α] (l : List α) (r : α)
    (d : l.Nodup) (h : r ∈ l) : l.countP (fun x => decide (x = r)) = 1 := by
  induction l with
  | nil => simp at h
  | cons a t ih =>
    rw [List.countP_cons]
    rcases List.mem_cons.mp h with rfl | hmem
    · have hz : t.countP (fun x => decide (x = r)) = 0 := by
        apply List.countP_eq_zero.mpr
        intro x hx
        simp only [decide_eq_true_eq]
        rintro rfl
        exact (List.nodup_cons.mp d).1 hx
      simp [hz]
    · have hne : a ≠ r := by
        rintro rfl
        exact (List.nodup_cons.mp d).1 hmem
      have ht := ih (List.nodup_cons.mp d).2 hmem
      simp [ht, hne]

lemma pjoin_cons_single (m : List String) (hm : m ≠ []) (hlast : m.getLast? ≠ some "")
    (c : String) : pjoin ("" :: m) [c] = "" :: (m ++ [c]) := by
  have h1 : startsSlash [c] = false := rfl
  have h2 : ("" :: m).getLast? = m.getLast? := by
    cases m with
    | nil => exact absurd rfl hm
    | cons x xs => exact List.getLast?_cons_cons ..
  unfold pjoin
  rw [h1, h2]
  simp only [Bool.false_eq_true, if_false]
  rw [if_neg hlast]
  rfl

lemma getLast?_ne_empty (m : List String) (hm : m ≠ []) (hcl : ∀ c ∈ m, c ≠ "") :
    m.getLast? ≠ some "" := by
  rw [List.getLast?_eq_getLast m hm]
  intro h
  exact hcl _ (List.getLast_mem hm) (Option.some_injective _ h)

lemma foldl_pjoin_clean (l : List String) (hl : ∀ c ∈ l, c ≠ "") (m : List String)
    (hm : m ≠ []) (hme : ∀ c ∈ m, c ≠ "") :
    l.foldl (fun a c => pjoin a [c]) ("" :: m) = "" :: (m ++ l) := by
  induction l generalizing m with
  | nil => simp
  | cons c rest ih =>
    have hc : c ≠ "" := hl c (by simp)
    have hstep : pjoin ("" :: m) [c] = "" :: (m ++ [c]) :=
      pjoin_cons_single m hm (getLast?_ne_empty m hm hme) c
    have hme' : ∀ x ∈ m ++ [c], x ≠ "" := by
      intro x hx
      rcases List.mem_append.mp hx with h | h
      · exact hme x h
      · simp at h; simpa [h] using hc
    calc (c :: rest).foldl (fun a c => pjoin a [c]) ("" :: m)
        = rest.foldl (fun a c => pjoin a [c]) ("" :: (m ++ [c])) := by
          rw [List.foldl_cons, hstep]
      _ = "" :: (m ++ [c] ++ rest) := ih (fun x hx => hl x (by simp [hx])) (m ++ [c]) (by simp) hme'
      _ = "" :: (m ++ c :: rest) := by simp

lemma createFolder_prefix_eq (comps : List String) (hclean : ∀ c ∈ comps, c ≠ "")
    (i : Nat) (hi : i ≤ comps.length) :
    (comps.take i).foldl (fun a c => pjoin a [c]) ["", ""] =
      if i = 0 then ["", ""] else "" :: comps.take i := by
  cases i with
  | zero => simp
  | succ k =>
    cases comps with
    | nil => simp at hi
    | cons c0 rest =>
      have hc0 : c0 ≠ "" := hclean c0 (by simp)
      have hfirst : pjoin ["", ""] [c0] = ["", c0] := rfl
      have htail : ∀ x ∈ rest.take k, x ≠ "" := fun x hx =>
        hclean x (by simp [List.mem_of_mem_take hx])
      rw [List.take_succ_cons, List.foldl_cons, hfirst]
      have := foldl_pjoin_clean (rest.take k) htail [c0] (by simp) (by simpa using hc0)
      simpa using this

lemma createFolderRequests_nodup (fn : List String)
    (hclean : ∀ c ∈ normpath fn, c ≠ "") : (createFolderRequests fn).Nodup := by
  unfold createFolderRequests
  refine (List.nodup_range _).map_on ?_
  intro i hi j hj hij
  rw [List.mem_range] at hi hj
  have h1 := congrArg Prod.fst hij
  simp only at h1
  rw [createFolder_prefix_eq _ hclean i (le_of_lt hi),
      createFolder_prefix_eq _ hclean j (le_of_lt hj)] at h1
  by_cases h0i : i = 0 <;> by_cases h0j : j = 0
  · omega
  · rw [if_pos h0i, if_neg h0j] at h1
    have : (normpath fn).take j = [""] := by
      have := congrArg List.tail h1
      simpa using this.symm
    have hmem : "" ∈ (normpath fn).take j := by rw [this]; simp
    exact absurd (hclean _ (List.mem_of_mem_take hmem)) (by simp)
  · rw [if_neg h0i, if_pos h0j] at h1
    have : (normpath fn).take i = [""] := by
      have := congrArg List.tail h1
      simpa using this
    have hmem : "" ∈ (normpath fn).take i := by rw [this]; simp
    exact absurd (hclean _ (List.mem_of_mem_take hmem)) (by simp)
  · rw [if_neg h0i, if_neg h0j] at h1
    have h2 : (normpath fn).take i = (normpath fn).take j := by simpa using h1
    have := congrArg List.length h2
    simp only [List.length_take] at this
    omega

/-- C1 counterexample: `create_folder` consults no existence oracle, so two
calls on the path `a/b/c` issue two creation requests for the segment `a`
(root `/`), refuting "at most one creation request per path segment in total
across both calls". -/
theorem create_folder_twice_not_idempotent :
    countReq (createFolderRequests ["a", "b", "c"] ++
      createFolderRequests ["a", "b", "c"]) (["", ""], "a") = 2 ∧
    ¬ (countReq (createFolderRequests ["a", "b", "c"] ++
      createFolderRequests ["a", "b", "c"]) (["", ""], "a") ≤ 1) := by
  constructor
  · rfl
  · decide

/-- C1 (amended): `create_folder` issues exactly one creation request per
path segment on every call and never consults an existence oracle, so two
calls on the same path issue exactly two creation requests per segment. -/
theorem create_folder_two_calls_two_requests_per_segment (fn : List String)
    (hclean : ∀ c ∈ normpath fn, c ≠ "") (r : List String × String)
    (hr : r ∈ createFolderRequests fn) :
    countReq (createFolderRequests fn ++ createFolderRequests fn) r = 2 := by
  unfold countReq
  rw [List.countP_append,
    countP_eq_one_of_nodup_mem _ r (createFolderRequests_nodup fn hclean) hr]

/-- Witness for C1 (amended) at the concrete path `a/b/c` and segment `b`. -/
theorem create_folder_two_calls_two_requests_per_segment_w :
    countReq (createFolderRequests ["a", "b", "c"] ++
      createFolderRequests ["a", "b", "c"]) (["", "a"], "b") = 2 :=
  create_folder_two_calls_two_requests_per_segment ["a", "b", "c"] (by decide)
    (["", "a"], "b") (by decide)

/-- C3 counterexample: `HFS.exists` keeps no cache, so a run that queries the
same path twice issues two remote existence checks, refuting "every later
exists query for the same path within the run answers from the cache without
a remote call". -/
theorem exists_not_cached_counterexample :
    countExistsChecks
      (existsRunTrace ⟨fun _ => DetailVal.null, fun _ => 200⟩ [["", "a"], ["", "a"]])
      ["", "a"] = 2 ∧
    ¬ (countExistsChecks
      (existsRunTrace ⟨fun _ => DetailVal.null, fun _ => 200⟩ [["", "a"], ["", "a"]])
      ["", "a"] ≤ 1) := by
  constructor
  · rfl
  · decide

/-- C3 (amended): every `HFS.exists` call issues exactly one remote existence
check — the number of remote checks in a run equals the number of queries,
and the checks for a path `p` equal the queries for `p`; nothing is cached. -/
theorem exists_every_query_issues_remote_check (env : Env) (queries : List (List String)) :
    (existsRunTrace env queries).length = queries.length ∧
    ∀ p, countExistsChecks (existsRunTrace env queries) p = queries.countP (· == p) := by
  induction queries with
  | nil => exact ⟨rfl, fun _ => rfl⟩
  | cons q rest ih =>
    have htr : existsRunTrace env (q :: rest) =
        REvent.existsCheck q (detailNeFalse (env.detail q)) :: existsRunTrace env rest := rfl
    refine ⟨?_, fun p => ?_⟩
    · rw [htr, List.length_cons, ih.1, List.length_cons]
    · rw [htr]
      unfold countExistsChecks at *
      rw [List.countP_cons, List.countP_cons, ih.2 p]

/-- C10: `HFS.exists` returns `details[0] != False` — `True` exactly when the
first element of the `details` array is anything other than the boolean
`False`; in particular a `null` detail is reported as existing. -/
theorem exists_first_detail_ne_false (env : Env) (p : List String) (rest : List DetailVal) :
    existsResponse (env.detail p :: rest) = some (existsModel env p).1 ∧
    ((existsModel env p).1 = true ↔ env.detail p ≠ DetailVal.bool false) ∧
    (env.detail p = DetailVal.null → (existsModel env p).1 = true) := by
  refine ⟨rfl, ?_, ?_⟩
  · unfold existsModel
    cases h : env.detail p with
    | null => simp [detailNeFalse]
    | bool b => cases b <;> simp [detailNeFalse]
    | obj f => simp [detailNeFalse]
  · intro h
    simp [existsModel, h, detailNeFalse]

/-- Witness for C10 with a `null` first detail. -/
theorem exists_first_detail_ne_false_w :
    existsResponse ((Env.mk (fun _ => DetailVal.null) (fun _ => 200)).detail ["", "a"] :: []) =
      some (existsModel (Env.mk (fun _ => DetailVal.null) (fun _ => 200)) ["", "a"]).1 ∧
    ((existsModel (Env.mk (fun _ => DetailVal.null) (fun _ => 200)) ["", "a"]).1 = true ↔
      (Env.mk (fun _ => DetailVal.null) (fun _ => 200)).detail ["", "a"] ≠ DetailVal.bool false) ∧
    ((Env.mk (fun _ => DetailVal.null) (fun _ => 200)).detail ["", "a"] = DetailVal.null →
      (existsModel (Env.mk (fun _ => DetailVal.null) (fun _ => 200)) ["", "a"]).1 = true) :=
  exists_first_detail_ne_false (Env.mk (fun _ => DetailVal.null) (fun _ => 200)) ["", "a"] []

lemma uploadFileM_trace_ok (env : Env) (fs : LocalFS) (domain : String)
    (local_path remote_root : List String) (ex : String)
    (h1 : fs.pathExists local_path = true) (h2 : fs.isFile local_path = true)
    (hex : ex = UploadMode.overwrite.value ∨ ex = UploadMode.skip.value) :
    (uploadFileM env fs domain local_path remote_root ex).1 =
      [.putReq (uploadReqOf fs domain local_path remote_root ex)
        (env.put (uploadReqOf fs domain local_path remote_root ex))] := by
  unfold uploadFileM
  rw [if_neg (by simp [h1]), if_neg (by simp [h2]), if_neg (not_not_intro hex)]
  by_cases hst : env.put (uploadReqOf fs domain local_path remote_root ex) = 401
  · simp [hst]
  · simp [hst]

lemma uploadReqOf_urlPath (fs : LocalFS) (domain : String)
    (local_path remote_root : List String) (ex : String) :
    (uploadReqOf fs domain local_path remote_root ex).urlPath =
      uploadUrlFor domain remote_root local_path := by
  unfold uploadReqOf
  split <;> rfl

lemma uploadReqOf_existing (fs : LocalFS) (domain : String)
    (local_path remote_root : List String) (ex : String) :
    (uploadReqOf fs domain local_path remote_root ex).existing = ex := by
  unfold uploadReqOf
  split <;> rfl

lemma uploadReqOf_headers (fs : LocalFS) (domain : String)
    (local_path remote_root : List String) (ex : String) :
    (uploadReqOf fs domain local_path remote_root ex).headers = [] := by
  unfold uploadReqOf
  split <;> rfl

/-- C4: for the same call arguments, the small-payload (in-memory) and the
streamed (multipart) strategies of `HFS._upload_file` issue requests with
the same URL, the same `existing` conflict directive, and the same (empty)
explicit headers; each strategy issues exactly one `PUT`, and the choice is
visible only in the body transfer mechanics. -/
theorem upload_strategies_same_url_directive_headers
    (env : Env) (fs₁ fs₂ : LocalFS) (domain : String)
    (local_path remote_root : List String) (ex : String)
    (h₁ : fs₁.pathExists local_path = true) (hf₁ : fs₁.isFile local_path = true)
    (h₂ : fs₂.pathExists local_path = true) (hf₂ : fs₂.isFile local_path = true)
    (hex : ex = UploadMode.overwrite.value ∨ ex = UploadMode.skip.value)
    (hsmall : fs₁.size local_path < fileSizeThreshold)
    (hlarge : fileSizeThreshold ≤ fs₂.size local_path) :
    strategyOf fs₁ local_path = .inMemory ∧
    strategyOf fs₂ local_path = .streamed ∧
    (uploadFileM env fs₁ domain local_path remote_root ex).1 =
      [.putReq (uploadReqOf fs₁ domain local_path remote_root ex)
        (env.put (uploadReqOf fs₁ domain local_path remote_root ex))] ∧
    (uploadFileM env fs₂ domain local_path remote_root ex).1 =
      [.putReq (uploadReqOf fs₂ domain local_path remote_root ex)
        (env.put (uploadReqOf fs₂ domain local_path remote_root ex))] ∧
    (uploadReqOf fs₁ domain local_path remote_root ex).urlPath =
      (uploadReqOf fs₂ domain local_path remote_root ex).urlPath ∧
    (uploadReqOf fs₁ domain local_path remote_root ex).existing =
      (uploadReqOf fs₂ domain local_path remote_root ex).existing ∧
    (uploadReqOf fs₁ domain local_path remote_root ex).headers =
      (uploadReqOf fs₂ domain local_path remote_root ex).headers := by
  refine ⟨?_, ?_, uploadFileM_trace_ok env fs₁ domain local_path remote_root ex h₁ hf₁ hex,
    uploadFileM_trace_ok env fs₂ domain local_path remote_root ex h₂ hf₂ hex, ?_, ?_, ?_⟩
  · unfold strategyOf
    rw [if_pos hsmall]
  · unfold strategyOf
    rw [if_neg (Nat.not_lt.mpr hlarge)]
  · rw [uploadReqOf_urlPath, uploadReqOf_urlPath]
  · rw [uploadReqOf_existing, uploadReqOf_existing]
  · rw [uploadReqOf_headers, uploadReqOf_headers]

/-- Witness environment and filesystems for the upload theorems. -/
def wEnv : Env := ⟨fun _ => .null, fun _ => 200⟩

/-- Witness filesystem whose one file is 100 bytes. -/
def wFsSmall : LocalFS := ⟨fun _ => true, fun _ => true, fun _ => true, fun _ => 100, fun _ => [7, 7]⟩

/-- Witness filesystem whose one file is exactly 1 MiB. -/
def wFsLarge : LocalFS := ⟨fun _ => true, fun _ => true, fun _ => true, fun _ => 1048576, fun _ => []⟩

/-- Witness for C4 on a 100-byte and a 1-MiB file. -/
theorem upload_strategies_same_url_directive_headers_w :
    strategyOf wFsSmall ["", "r", "f.txt"] = .inMemory ∧
    strategyOf wFsLarge ["", "r", "f.txt"] = .streamed ∧
    (uploadFileM wEnv wFsSmall "h.example" ["", "r", "f.txt"] ["", "dst"] "skip").1 =
      [.putReq (uploadReqOf wFsSmall "h.example" ["", "r", "f.txt"] ["", "dst"] "skip")
        (wEnv.put (uploadReqOf wFsSmall "h.example" ["", "r", "f.txt"] ["", "dst"] "skip"))] ∧
    (uploadFileM wEnv wFsLarge "h.example" ["", "r", "f.txt"] ["", "dst"] "skip").1 =
      [.putReq (uploadReqOf wFsLarge "h.example" ["", "r", "f.txt"] ["", "dst"] "skip")
        (wEnv.put (uploadReqOf wFsLarge "h.example" ["", "r", "f.txt"] ["", "dst"] "skip"))] ∧
    (uploadReqOf wFsSmall "h.example" ["", "r", "f.txt"] ["", "dst"] "skip").urlPath =
      (uploadReqOf wFsLarge "h.example" ["", "r", "f.txt"] ["", "dst"] "skip").urlPath ∧
    (uploadReqOf wFsSmall "h.example" ["", "r", "f.txt"] ["", "dst"] "skip").existing =
      (uploadReqOf wFsLarge "h.example" ["", "r", "f.txt"] ["", "dst"] "skip").existing ∧
    (uploadReqOf wFsSmall "h.example" ["", "r", "f.txt"] ["", "dst"] "skip").headers =
      (uploadReqOf wFsLarge "h.example" ["", "r", "f.txt"] ["", "dst"] "skip").headers :=
  upload_strategies_same_url_directive_headers wEnv wFsSmall wFsLarge "h.example"
    ["", "r", "f.txt"] ["", "dst"] "skip" rfl rfl rfl rfl (Or.inr rfl) (by decide) (by decide)

lemma barTraceFrom_chain (n : Nat) (reads : List Nat) :
    List.Chain' (· ≤ ·) (n :: barTraceFrom n reads) := by
  induction reads generalizing n with
  | nil => exact List.chain'_singleton n
  | cons r rs ih =>
    rw [barTraceFrom]
    exact (List.chain'_cons.mpr ⟨Nat.le_add_right n (r - n), ih (n + (r - n))⟩)

/-- C5: the strategy is chosen by comparing the file size in bytes against
the fixed threshold `1024 * 1024 = 1048576`: strictly below it the whole
content is sent as a single in-memory body, at or above it the file is sent
as a multipart stream; and the byte-progress positions emitted by the
monitor callback are monotonically nondecreasing for every read sequence. -/
theorem upload_strategy_threshold_and_progress (fs : LocalFS) (domain : String)
    (local_path remote_root : List String) (ex : String) :
    fileSizeThreshold = 1048576 ∧
    (strategyOf fs local_path = .inMemory ↔ fs.size local_path < 1048576) ∧
    (strategyOf fs local_path = .streamed ↔ 1048576 ≤ fs.size local_path) ∧
    (uploadReqOf fs domain local_path remote_root ex).body =
      (if fs.size local_path < fileSizeThreshold then .raw (fs.content local_path)
       else .multipart "file" "filename") ∧
    ∀ reads : List Nat, List.Chain' (· ≤ ·) (barTrace reads) := by
  have hthr : fileSizeThreshold = 1048576 := rfl
  refine ⟨rfl, ?_, ?_, ?_, ?_⟩
  · unfold strategyOf
    rw [hthr]
    split
    · rename_i h
      exact iff_of_true rfl h
    · rename_i h
      exact iff_of_false (by decide) h
  · unfold strategyOf
    rw [hthr]
    split
    · rename_i h
      exact iff_of_false (by decide) (by omega)
    · rename_i h
      exact iff_of_true rfl (by omega)
  · unfold uploadReqOf
    split <;> rfl
  · intro reads
    exact (barTraceFrom_chain 0 reads).tail

/-- C6: each failed local precondition of `HFS._upload_file` — missing local
file (`FileNotFoundError`), local path a directory (`IsADirectoryError`),
`exists` value outside the allowed set (`ValueError`) — returns the
corresponding error with an empty remote trace: no network request is
issued. -/
theorem upload_preconditions_fail_before_network (env : Env) (fs : LocalFS)
    (domain : String) (local_path remote_root : List String) (ex : String) :
    (fs.pathExists local_path = false →
      uploadFileM env fs domain local_path remote_root ex = ([], .error .fileNotFound)) ∧
    (fs.pathExists local_path = true → fs.isFile local_path = false →
      uploadFileM env fs domain local_path remote_root ex = ([], .error .isADirectory)) ∧
    (fs.pathExists local_path = true → fs.isFile local_path = true →
      ¬ (ex = UploadMode.overwrite.value ∨ ex = UploadMode.skip.value) →
      uploadFileM env fs domain local_path remote_root ex = ([], .error .valueError)) := by
  refine ⟨fun h => ?_, fun h1 h2 => ?_, fun h1 h2 h3 => ?_⟩
  · unfold uploadFileM
    rw [if_pos (by simp [h])]
  · unfold uploadFileM
    rw [if_neg (by simp [h1]), if_pos (by simp [h2])]
  · unfold uploadFileM
    rw [if_neg (by simp [h1]), if_neg (by simp [h2]), if_pos h3]

/-- Witness filesystem with no files at all. -/
def wFsNone : LocalFS := ⟨fun _ => false, fun _ => false, fun _ => false, fun _ => 0, fun _ => []⟩

/-- Witness for C6: uploading a missing local file fails with
`FileNotFoundError` and issues no request. -/
theorem upload_preconditions_fail_before_network_w :
    uploadFileM wEnv wFsNone "h.example" ["", "r", "f.txt"] ["", "dst"] "skip" =
      ([], .error .fileNotFound) :=
  (upload_preconditions_fail_before_network wEnv wFsNone "h.example"
    ["", "r", "f.txt"] ["", "dst"] "skip").1 rfl

lemma foldl_normStep_clean (comps : List String) (h : ∀ c ∈ comps, cleanSeg c)
    (b : Bool) (acc : List String) : comps.foldl (normStep b) acc = acc ++ comps := by
  induction comps generalizing acc with
  | nil => simp
  | cons c cs ih =>
    have hc := h c (by simp)
    have hstep : normStep b acc c = acc ++ [c] := by
      unfold normStep
      rw [if_neg (by simp [hc.1, hc.2.1]), if_pos (Or.inl hc.2.2)]
    rw [List.foldl_cons, hstep, ih (fun x hx => h x (by simp [hx]))]
    simp

lemma leadSlashes_abs_clean (c0 : String) (rest : List String) (hc0 : c0 ≠ "") :
    leadSlashes ("" :: c0 :: rest) = 1 := by
  unfold leadSlashes
  have h1 : startsSlash ("" :: c0 :: rest) = true := by simp [startsSlash]
  have h2 : startsSlash2 ("" :: c0 :: rest) = false := by
    cases rest with
    | nil => rfl
    | cons r rs => simp [startsSlash2, hc0]
  rw [h1, h2]
  simp

lemma normpath_abs_clean (m : List String) (hm : m ≠ []) (hmc : ∀ c ∈ m, cleanSeg c) :
    normpath ("" :: m) = "" :: m := by
  obtain ⟨c0, rest, rfl⟩ : ∃ c0 rest, m = c0 :: rest := by
    cases m with
    | nil => exact absurd rfl hm
    | cons a l => exact ⟨a, l, rfl⟩
  have hc0 : cleanSeg c0 := hmc c0 (by simp)
  have hfold : ∀ b : Bool, normBody b ("" :: c0 :: rest) = c0 :: rest := by
    intro b
    unfold normBody
    rw [List.foldl_cons]
    have h0 : normStep b [] "" = [] := by
      unfold normStep
      rw [if_pos (Or.inl rfl)]
    rw [h0]
    exact foldl_normStep_clean (c0 :: rest) hmc b []
  simp only [normpath, leadSlashes_abs_clean c0 rest hc0.1, hfold]
  simp

lemma startsSlash_eq_false_of_clean (l : List String) (hl : ∀ c ∈ l, cleanSeg c) :
    startsSlash l = false := by
  cases l with
  | nil => rfl
  | cons a t =>
    cases t with
    | nil => rfl
    | cons b u =>
      have ha : a ≠ "" := (hl a (by simp)).1
      simp [startsSlash, ha]

lemma pjoin_abs_clean (m suf : List String) (hm : m ≠ []) (hmc : ∀ c ∈ m, cleanSeg c)
    (hsuf : startsSlash suf = false) :
    pjoin ("" :: m) suf = "" :: (m ++ suf) := by
  have h2 : ("" :: m).getLast? = m.getLast? := by
    cases m with
    | nil => exact absurd rfl hm
    | cons x xs => exact List.getLast?_cons_cons ..
  unfold pjoin
  rw [hsuf]
  simp only [Bool.false_eq_true, if_false]
  rw [h2, if_neg (getLast?_ne_empty m hm (fun c hc => (hmc c hc).1))]
  rfl

lemma pjoin_of_abs_arg (a b : List String) (hb : startsSlash b = true) : pjoin a b = b := by
  unfold pjoin
  rw [hb]
  rfl

lemma startsSlash_cons_cons (x : String) (xs : List String) :
    startsSlash ("" :: x :: xs) = true := by simp [startsSlash]

lemma commonPrefixLen_self_append (l t : List String) :
    commonPrefixLen l (l ++ t) = l.length := by
  induction l with
  | nil => rfl
  | cons a as ih => simp [commonPrefixLen, ih]

lemma filter_ne_empty_eq_self (l : List String) (hl : ∀ c ∈ l, cleanSeg c) :
    l.filter (· ≠ "") = l :=
  List.filter_eq_self.mpr (fun a ha => by simpa using (hl a ha).1)

lemma abspath_abs_clean (cwd m : List String) (hm : m ≠ []) (hmc : ∀ c ∈ m, cleanSeg c) :
    abspath cwd ("" :: m) = "" :: m := by
  obtain ⟨x, xs, rfl⟩ : ∃ x xs, m = x :: xs := by
    cases m with
    | nil => exact absurd rfl hm
    | cons a l => exact ⟨a, l, rfl⟩
  unfold abspath
  rw [pjoin_of_abs_arg cwd _ (startsSlash_cons_cons x xs)]
  exact normpath_abs_clean _ hm hmc

lemma relpath_descendant (cwd rl suf : List String) (hrl : rl ≠ [])
    (hrlc : ∀ c ∈ rl, cleanSeg c) (hsuf : suf ≠ []) (hsufc : ∀ c ∈ suf, cleanSeg c) :
    relpath cwd ("" :: (rl ++ suf)) ("" :: rl) = suf := by
  have hcat : ∀ c ∈ rl ++ suf, cleanSeg c := by
    intro c hc
    rcases List.mem_append.mp hc with h | h
    · exact hrlc c h
    · exact hsufc c h
  have habs1 : abspath cwd ("" :: (rl ++ suf)) = "" :: (rl ++ suf) :=
    abspath_abs_clean cwd _ (by simp [hrl]) hcat
  have habs2 : abspath cwd ("" :: rl) = "" :: rl := abspath_abs_clean cwd _ hrl hrlc
  have hf1 : ("" :: (rl ++ suf)).filter (· ≠ "") = rl ++ suf := by
    rw [List.filter_cons, if_neg (by decide)]
    exact filter_ne_empty_eq_self _ hcat
  have hf2 : ("" :: rl).filter (· ≠ "") = rl := by
    rw [List.filter_cons, if_neg (by decide)]
    exact filter_ne_empty_eq_self _ hrlc
  simp only [relpath, habs1, habs2, hf1, hf2, commonPrefixLen_self_append]
  rw [Nat.sub_self, List.replicate_zero, List.nil_append, List.drop_left]
  rw [if_neg hsuf]

lemma renderPath_cons (x : String) (rest : List String) (h : rest ≠ []) :
    renderPath (x :: rest) = x ++ "/" ++ renderPath rest := by
  cases rest with
  | nil => exact absurd rfl h
  | cons y ys => rfl

lemma renderPath_append (a b : List String) (ha : a ≠ []) (hb : b ≠ []) :
    renderPath (a ++ b) = renderPath a ++ "/" ++ renderPath b := by
  induction a with
  | nil => exact absurd rfl ha
  | cons x xs ih =>
    by_cases hxs : xs = []
    · subst hxs
      rw [List.cons_append, List.nil_append, renderPath_cons x b hb]
      rfl
    · rw [List.cons_append, renderPath_cons x (xs ++ b) (by simp [hxs]), ih hxs,
        renderPath_cons x xs hxs]
      simp [String.append_assoc]

lemma getLastD_mem_of_ne (l : List String) (d : String) (hl : l ≠ []) :
    l.getLastD d ∈ l := by
  cases l with
  | nil => exact absurd rfl hl
  | cons a t =>
    rw [List.getLastD_cons]
    exact List.getLastD_mem_cons t a

lemma remoteFileFor_eq (cwd remote_path local_path local_file rs rl suf : List String)
    (hrp : remote_path = "" :: rs) (hrs : rs ≠ []) (hrsc : ∀ c ∈ rs, cleanSeg c)
    (hlp : local_path = "" :: rl) (hrl : rl ≠ []) (hrlc : ∀ c ∈ rl, cleanSeg c)
    (hsuf : suf ≠ []) (hsufc : ∀ c ∈ suf, cleanSeg c)
    (hfile : local_file = localWalkItem local_path suf) :
    remoteFileFor cwd remote_path local_path local_file =
      "" :: (rs ++ rl.getLastD "" :: suf) := by
  subst hrp hlp
  have hname : rl.getLastD "" ∈ rl := getLastD_mem_of_ne rl "" hrl
  have hnamec : cleanSeg (rl.getLastD "") := hrlc _ hname
  have hnlp : normpath ("" :: rl) = "" :: rl := normpath_abs_clean rl hrl hrlc
  have hcat : ∀ c ∈ rl ++ suf, cleanSeg c := by
    intro c hc
    rcases List.mem_append.mp hc with h | h
    · exact hrlc c h
    · exact hsufc c h
  have hlf : local_file = "" :: (rl ++ suf) := by
    rw [hfile]
    unfold localWalkItem
    rw [pjoin_abs_clean rl suf hrl hrlc (startsSlash_eq_false_of_clean suf hsufc)]
    exact normpath_abs_clean _ (by simp [hrl]) hcat
  have hrr : remoteRootFor ("" :: rs) ("" :: rl) = "" :: (rs ++ [rl.getLastD ""]) := by
    unfold remoteRootFor
    rw [hnlp]
    rw [List.getLastD_cons]
    exact pjoin_abs_clean rs [rl.getLastD ""] hrs hrsc
      (startsSlash_eq_false_of_clean [rl.getLastD ""] (by simpa using hnamec))
  have hrel : relpath cwd local_file ("" :: rl) = suf := by
    rw [hlf]
    exact relpath_descendant cwd rl suf hrl hrlc hsuf hsufc
  unfold remoteFileFor
  rw [hrr, hrel]
  have hcat2 : ∀ c ∈ rs ++ [rl.getLastD ""], cleanSeg c := by
    intro c hc
    rcases List.mem_append.mp hc with h | h
    · exact hrsc c h
    · simp at h
      simpa [h] using hnamec
  rw [pjoin_abs_clean (rs ++ [rl.getLastD ""]) suf (by simp) hcat2
    (startsSlash_eq_false_of_clean suf hsufc)]
  have hcat3 : ∀ c ∈ rs ++ [rl.getLastD ""] ++ suf, cleanSeg c := by
    intro c hc
    rcases List.mem_append.mp hc with h | h
    · exact hcat2 c h
    · exact hsufc c h
  rw [normpath_abs_clean _ (by simp) hcat3]
  simp

/-- C8: for every walked local file under the sync root (an absolute, clean
local path joined with a clean relative suffix) and a clean absolute remote
root, the `remote_file` computed by `HFS._upload_folder` is the remote root
followed by further components (both as component lists and as rendered
strings), contains no `..` segment, and has no redundant separators (every
component after the single leading slash marker is nonempty). -/
theorem remote_path_mapping_rooted_clean
    (cwd remote_path local_path local_file rs rl suf : List String)
    (hrp : remote_path = "" :: rs) (hrs : rs ≠ []) (hrsc : ∀ c ∈ rs, cleanSeg c)
    (hlp : local_path = "" :: rl) (hrl : rl ≠ []) (hrlc : ∀ c ∈ rl, cleanSeg c)
    (hsuf : suf ≠ []) (hsufc : ∀ c ∈ suf, cleanSeg c)
    (hfile : local_file = localWalkItem local_path suf) :
    (∃ t, remoteFileFor cwd remote_path local_path local_file = remote_path ++ t ∧ t ≠ []) ∧
    (∃ u, renderPath (remoteFileFor cwd remote_path local_path local_file) =
      renderPath remote_path ++ u) ∧
    (∀ s ∈ remoteFileFor cwd remote_path local_path local_file, s ≠ "..") ∧
    (∀ s ∈ (remoteFileFor cwd remote_path local_path local_file).tail, s ≠ "") := by
  have heq := remoteFileFor_eq cwd remote_path local_path local_file rs rl suf
    hrp hrs hrsc hlp hrl hrlc hsuf hsufc hfile
  refine ⟨⟨rl.getLastD "" :: suf, ?_, by simp⟩, ?_, ?_, ?_⟩
  · rw [heq, hrp]
    simp
  · rw [heq, hrp]
    have h1 : ("" :: rs) ++ (rl.getLastD "" :: suf) = "" :: (rs ++ rl.getLastD "" :: suf) := by
      simp
    rw [← h1, renderPath_append ("" :: rs) (rl.getLastD "" :: suf) (by simp) (by simp)]
    exact ⟨"/" ++ renderPath (rl.getLastD "" :: suf), String.append_assoc ..⟩
  · rw [heq]
    intro s hs
    rcases List.mem_cons.mp hs with h | h
    · subst h
      decide
    · rcases List.mem_append.mp h with h2 | h2
      · exact (hrsc s h2).2.2
      · rcases List.mem_cons.mp h2 with h3 | h3
        · subst h3
          exact ((hrlc _ (getLastD_mem_of_ne rl "" hrl)).2.2)
        · exact (hsufc s h3).2.2
  · rw [heq]
    intro s hs
    simp only [List.tail_cons] at hs
    rcases List.mem_append.mp hs with h2 | h2
    · exact (hrsc s h2).1
    · rcases List.mem_cons.mp h2 with h3 | h3
      · subst h3
        exact ((hrlc _ (getLastD_mem_of_ne rl "" hrl)).1)
      · exact (hsufc s h3).1

/-- Witness for C8: sync root `/r`, remote root `/dst`, walked file
`/r/b/c/f2.txt`. -/
theorem remote_path_mapping_rooted_clean_w :
    (∃ t, remoteFileFor ["", "home"] ["", "dst"] ["", "r"]
      (localWalkItem ["", "r"] ["b", "c", "f2.txt"]) = ["", "dst"] ++ t ∧ t ≠ []) ∧
    (∃ u, renderPath (remoteFileFor ["", "home"] ["", "dst"] ["", "r"]
      (localWalkItem ["", "r"] ["b", "c", "f2.txt"])) = renderPath ["", "dst"] ++ u) ∧
    (∀ s ∈ remoteFileFor ["", "home"] ["", "dst"] ["", "r"]
      (localWalkItem ["", "r"] ["b", "c", "f2.txt"]), s ≠ "..") ∧
    (∀ s ∈ (remoteFileFor ["", "home"] ["", "dst"] ["", "r"]
      (localWalkItem ["", "r"] ["b", "c", "f2.txt"])).tail, s ≠ "") :=
  remote_path_mapping_rooted_clean ["", "home"] ["", "dst"] ["", "r"]
    (localWalkItem ["", "r"] ["b", "c", "f2.txt"]) ["dst"] ["r"] ["b", "c", "f2.txt"]
    rfl (by decide) (by decide) rfl (by decide) (by decide) (by decide) (by decide) rfl

lemma parseEntries_ok_of_modified_present (path : String) (es : List RawEntry)
    (hm : ∀ e ∈ es, e.n ≠ none → e.m ≠ none) :
    parseEntries path es = .ok (es.filterMap fun e =>
      match e.n, e.m with
      | some name, some m =>
        some ⟨name, e.s.getD 0, m, path, name.endsWith "/", e.c.getD ""⟩
      | _, _ => none) := by
  induction es with
  | nil => rfl
  | cons e tl ih =>
    have htl := ih (fun x hx => hm x (List.mem_cons_of_mem e hx))
    cases hn : e.n with
    | none =>
      rw [parseEntries, hn, List.filterMap_cons]
      simp only [hn]
      exact htl
    | some name =>
      have hmm : e.m ≠ none := hm e (by simp) (by simp [hn])
      cases hme : e.m with
      | none => exact absurd hme hmm
      | some m =>
        rw [parseEntries, hn, hme, htl, List.filterMap_cons]
        simp only [hn, hme]

/-- C7 counterexample: a listing entry that has a name but no modified-time
field makes the whole parse fail with `KeyError` instead of being skipped —
`files[i]['m']` is indexed unconditionally — so "every entry whose required
fields are absent is skipped without making the parse of the whole listing
fail" is false; even the remaining well-formed entries are lost. -/
theorem list_missing_modified_fails_whole_parse :
    parseEntries "/" [⟨some "a.txt", some 1, none, none⟩,
      ⟨some "b.txt", some 2, some "2024-01-01T00:00:00", none⟩] = .error .keyError ∧
    ∀ out, parseEntries "/" [⟨some "a.txt", some 1, none, none⟩,
      ⟨some "b.txt", some 2, some "2024-01-01T00:00:00", none⟩] ≠ .ok out := by
  refine ⟨rfl, fun out h => ?_⟩
  rw [show parseEntries "/" [⟨some "a.txt", some 1, none, none⟩,
    ⟨some "b.txt", some 2, some "2024-01-01T00:00:00", none⟩] =
    Except.error .keyError from rfl] at h
  exact Except.noConfusion h

/-- C7 (amended): the fixed `"data: "` prefix is stripped from the first
line before JSON parsing, and an entry with an absent (or null) name field
is skipped while the remaining entries are still returned — provided every
named entry carries a modified-time field; a named entry without one fails
the whole listing with `KeyError`. -/
theorem list_prefix_strip_and_name_skip (path : String) (es : List RawEntry)
    (j : List Char) (rest : List (List Char))
    (hm : ∀ e ∈ es, e.n ≠ none → e.m ≠ none) :
    firstLinePayload (("data: ".data ++ j) :: rest) = j ∧
    parseEntries path es = .ok (es.filterMap fun e =>
      match e.n, e.m with
      | some name, some m =>
        some ⟨name, e.s.getD 0, m, path, name.endsWith "/", e.c.getD ""⟩
      | _, _ => none) :=
  ⟨rfl, parseEntries_ok_of_modified_present path es hm⟩

/-- Witness for C7 (amended): a nameless entry is skipped, the named entry
is kept, and the `data: ` prefix is stripped. -/
theorem list_prefix_strip_and_name_skip_w :
    firstLinePayload (("data: ".data ++ "{}".data) :: []) = "{}".data ∧
    parseEntries "/" [⟨none, none, none, none⟩,
      ⟨some "d/", some 3, some "2024-01-01T00:00:00", some "note"⟩] =
      .ok ([⟨none, none, none, none⟩,
        (⟨some "d/", some 3, some "2024-01-01T00:00:00", some "note"⟩ : RawEntry)].filterMap
        fun e =>
        match e.n, e.m with
        | some name, some m =>
          some ⟨name, e.s.getD 0, m, "/", name.endsWith "/", e.c.getD ""⟩
        | _, _ => none) :=
  list_prefix_strip_and_name_skip "/" [⟨none, none, none, none⟩,
    ⟨some "d/", some 3, some "2024-01-01T00:00:00", some "note"⟩] "{}".data []
    (by decide)

lemma uploadFileM_trace_shape (env : Env) (fs : LocalFS) (domain : String)
    (lp rr : List String) (ex : String) :
    (uploadFileM env fs domain lp rr ex).1 = [] ∨
    (uploadFileM env fs domain lp rr ex).1 =
      [.putReq (uploadReqOf fs domain lp rr ex) (env.put (uploadReqOf fs domain lp rr ex))] := by
  unfold uploadFileM
  by_cases h1 : fs.pathExists lp = true
  · by_cases h2 : fs.isFile lp = true
    · by_cases h3 : ex = UploadMode.overwrite.value ∨ ex = UploadMode.skip.value
      · rw [if_neg (by simp [h1]), if_neg (by simp [h2]), if_neg (not_not_intro h3)]
        by_cases h4 : env.put (uploadReqOf fs domain lp rr ex) = 401
        · rw [if_pos h4]
          exact Or.inr rfl
        · rw [if_neg h4]
          exact Or.inr rfl
      · rw [if_neg (by simp [h1]), if_neg (by simp [h2]), if_pos h3]
        exact Or.inl rfl
    · rw [if_neg (by simp [h1]), if_pos (by simp [h2])]
      exact Or.inl rfl
  · rw [if_pos (by simp [h1])]
    exact Or.inl rfl

lemma uploadFileM_trace_of_ok (env : Env) (fs : LocalFS) (domain : String)
    (lp rr : List String) (ex : String) (v : PutRequest × Strategy × Nat)
    (h : (uploadFileM env fs domain lp rr ex).2 = .ok v) :
    (uploadFileM env fs domain lp rr ex).1 =
      [.putReq (uploadReqOf fs domain lp rr ex) (env.put (uploadReqOf fs domain lp rr ex))] := by
  by_cases h1 : fs.pathExists lp = true
  · by_cases h2 : fs.isFile lp = true
    · by_cases h3 : ex = UploadMode.overwrite.value ∨ ex = UploadMode.skip.value
      · exact uploadFileM_trace_ok env fs domain lp rr ex h1 h2 h3
      · exfalso
        unfold uploadFileM at h
        rw [if_neg (by simp [h1]), if_neg (by simp [h2]), if_pos h3] at h
        simp at h
    · exfalso
      unfold uploadFileM at h
      rw [if_neg (by simp [h1]), if_pos (by simp [h2])] at h
      simp at h
  · exfalso
    unfold uploadFileM at h
    rw [if_pos (by simp [h1])] at h
    simp at h

lemma uploadFolderStep_of_ok (env : Env) (fs : LocalFS) (domain ex : String)
    (cwd local_path remote_root f : List String)
    (h : (uploadFolderStep env fs domain ex cwd local_path remote_root f).2 = none) :
    (uploadFolderStep env fs domain ex cwd local_path remote_root f).1 =
      [.existsCheck (remoteDirFor cwd local_path remote_root f) true,
       .putReq (uploadReqOf fs domain f (remoteDirFor cwd local_path remote_root f) ex)
         (env.put (uploadReqOf fs domain f (remoteDirFor cwd local_path remote_root f) ex))] ∧
    detailNeFalse (env.detail (remoteDirFor cwd local_path remote_root f)) = true := by
  unfold uploadFolderStep at h ⊢
  by_cases hd : (existsModel env (remoteDirFor cwd local_path remote_root f)).1 = true
  · rw [if_neg (by simpa using hd)] at h ⊢
    cases hur : (uploadFileM env fs domain f (remoteDirFor cwd local_path remote_root f) ex).2 with
    | error e =>
      rw [hur] at h
      simp at h
    | ok v =>
      rw [hur] at h
      dsimp only at h ⊢
      have hput := uploadFileM_trace_of_ok env fs domain f
        (remoteDirFor cwd local_path remote_root f) ex v hur
      have her : (existsModel env (remoteDirFor cwd local_path remote_root f)).2 =
          [.existsCheck (remoteDirFor cwd local_path remote_root f) true] := by
        unfold existsModel at hd ⊢
        simp only at hd
        rw [hd]
      refine ⟨?_, hd⟩
      rw [her, hput]
      rfl
  · rw [if_pos (by simpa using hd)] at h
    simp at h

lemma uploadFolderStep_auth (env : Env) (fs : LocalFS) (domain ex : String)
    (cwd local_path remote_root fk : List String)
    (hd : detailNeFalse (env.detail (remoteDirFor cwd local_path remote_root fk)) = true)
    (h1 : fs.pathExists fk = true) (h2 : fs.isFile fk = true)
    (hex : ex = UploadMode.overwrite.value ∨ ex = UploadMode.skip.value)
    (h401 : env.put (uploadReqOf fs domain fk (remoteDirFor cwd local_path remote_root fk) ex)
      = 401) :
    uploadFolderStep env fs domain ex cwd local_path remote_root fk =
      ([.existsCheck (remoteDirFor cwd local_path remote_root fk) true,
        .putReq (uploadReqOf fs domain fk (remoteDirFor cwd local_path remote_root fk) ex) 401],
       some .authorizationFailed) := by
  have hups : uploadFileM env fs domain fk (remoteDirFor cwd local_path remote_root fk) ex =
      ([.putReq (uploadReqOf fs domain fk (remoteDirFor cwd local_path remote_root fk) ex) 401],
        .error .authorizationFailed) := by
    unfold uploadFileM
    rw [if_neg (by simp [h1]), if_neg (by simp [h2]), if_neg (not_not_intro hex), if_pos h401,
      h401]
  unfold uploadFolderStep
  rw [if_neg (by simp [existsModel, hd]), hups]
  unfold existsModel
  rw [hd]
  rfl

lemma uploadFolderRun_cons_err (env : Env) (fs : LocalFS) (domain ex : String)
    (cwd local_path remote_root f : List String) (rest : List (List String)) (e : RunErr)
    (h : (uploadFolderStep env fs domain ex cwd local_path remote_root f).2 = some e) :
    uploadFolderRun env fs domain ex cwd local_path remote_root (f :: rest) =
      ((uploadFolderStep env fs domain ex cwd local_path remote_root f).1, .error e) := by
  have hdef : uploadFolderRun env fs domain ex cwd local_path remote_root (f :: rest) =
      (match (uploadFolderStep env fs domain ex cwd local_path remote_root f).2 with
       | some e => ((uploadFolderStep env fs domain ex cwd local_path remote_root f).1,
           .error e)
       | none =>
         ((uploadFolderStep env fs domain ex cwd local_path remote_root f).1 ++
            (uploadFolderRun env fs domain ex cwd local_path remote_root rest).1,
          (uploadFolderRun env fs domain ex cwd local_path remote_root rest).2)) := rfl
  rw [hdef, h]

lemma uploadFolderRun_cons_ok (env : Env) (fs : LocalFS) (domain ex : String)
    (cwd local_path remote_root f : List String) (rest : List (List String))
    (h : (uploadFolderStep env fs domain ex cwd local_path remote_root f).2 = none) :
    uploadFolderRun env fs domain ex cwd local_path remote_root (f :: rest) =
      ((uploadFolderStep env fs domain ex cwd local_path remote_root f).1 ++
        (uploadFolderRun env fs domain ex cwd local_path remote_root rest).1,
       (uploadFolderRun env fs domain ex cwd local_path remote_root rest).2) := by
  have hdef : uploadFolderRun env fs domain ex cwd local_path remote_root (f :: rest) =
      (match (uploadFolderStep env fs domain ex cwd local_path remote_root f).2 with
       | some e => ((uploadFolderStep env fs domain ex cwd local_path remote_root f).1,
           .error e)
       | none =>
         ((uploadFolderStep env fs domain ex cwd local_path remote_root f).1 ++
            (uploadFolderRun env fs domain ex cwd local_path remote_root rest).1,
          (uploadFolderRun env fs domain ex cwd local_path remote_root rest).2)) := rfl
  rw [hdef, h]

lemma uploadFolderRun_append_ok (env : Env) (fs : LocalFS) (domain ex : String)
    (cwd local_path remote_root : List String) (l1 l2 : List (List String))
    (h : ∀ f ∈ l1, (uploadFolderStep env fs domain ex cwd local_path remote_root f).2 = none) :
    uploadFolderRun env fs domain ex cwd local_path remote_root (l1 ++ l2) =
      ((uploadFolderRun env fs domain ex cwd local_path remote_root l1).1 ++
        (uploadFolderRun env fs domain ex cwd local_path remote_root l2).1,
       (uploadFolderRun env fs domain ex cwd local_path remote_root l2).2) := by
  induction l1 with
  | nil => simp [uploadFolderRun]
  | cons f t ih =>
    have hf := h f (by simp)
    rw [List.cons_append, uploadFolderRun_cons_ok env fs domain ex cwd local_path remote_root
      f (t ++ l2) hf, uploadFolderRun_cons_ok env fs domain ex cwd local_path remote_root
      f t hf, ih (fun x hx => h x (by simp [hx]))]
    simp

lemma mem_run_of_mem_ok (env : Env) (fs : LocalFS) (domain ex : String)
    (cwd local_path remote_root : List String) (l : List (List String))
    (h : ∀ x ∈ l, (uploadFolderStep env fs domain ex cwd local_path remote_root x).2 = none)
    (f : List String) (hf : f ∈ l) :
    .putReq (uploadReqOf fs domain f (remoteDirFor cwd local_path remote_root f) ex)
      (env.put (uploadReqOf fs domain f (remoteDirFor cwd local_path remote_root f) ex)) ∈
    (uploadFolderRun env fs domain ex cwd local_path remote_root l).1 := by
  induction l with
  | nil => simp at hf
  | cons a t ih =>
    rw [uploadFolderRun_cons_ok env fs domain ex cwd local_path remote_root a t (h a (by simp))]
    rcases List.mem_cons.mp hf with rfl | hmem
    · have hsh := (uploadFolderStep_of_ok env fs domain ex cwd local_path remote_root f
        (h f (by simp))).1
      apply List.mem_append_left
      rw [hsh]
      simp
    · exact List.mem_append_right _ (ih (fun x hx => h x (by simp [hx])) hmem)

/-- C2: if `_upload_file` raises `AuthorizationFailed` (HTTP 401) for one
file of a folder upload, the run halts there: the run over
`pre ++ fk :: post` is exactly the run over `pre ++ [fk]`, its result is the
authorization error, every earlier file's upload request (with its response
status, the outcome the code prints) is in the trace, and no event of any
later file exists. -/
theorem upload_folder_halts_on_authorization_error
    (env : Env) (fs : LocalFS) (domain ex : String)
    (cwd local_path remote_root : List String)
    (pre post : List (List String)) (fk : List String)
    (hpre : ∀ f ∈ pre, (uploadFolderStep env fs domain ex cwd local_path remote_root f).2 = none)
    (hd : detailNeFalse (env.detail (remoteDirFor cwd local_path remote_root fk)) = true)
    (h1 : fs.pathExists fk = true) (h2 : fs.isFile fk = true)
    (hex : ex = UploadMode.overwrite.value ∨ ex = UploadMode.skip.value)
    (h401 : env.put (uploadReqOf fs domain fk (remoteDirFor cwd local_path remote_root fk) ex)
      = 401) :
    uploadFolderRun env fs domain ex cwd local_path remote_root (pre ++ fk :: post) =
      uploadFolderRun env fs domain ex cwd local_path remote_root (pre ++ [fk]) ∧
    (uploadFolderRun env fs domain ex cwd local_path remote_root (pre ++ fk :: post)).2 =
      .error .authorizationFailed ∧
    ∀ f ∈ pre,
      .putReq (uploadReqOf fs domain f (remoteDirFor cwd local_path remote_root f) ex)
        (env.put (uploadReqOf fs domain f (remoteDirFor cwd local_path remote_root f) ex)) ∈
      (uploadFolderRun env fs domain ex cwd local_path remote_root (pre ++ fk :: post)).1 := by
  have hstep := uploadFolderStep_auth env fs domain ex cwd local_path remote_root fk
    hd h1 h2 hex h401
  have hkerr : (uploadFolderStep env fs domain ex cwd local_path remote_root fk).2 =
      some .authorizationFailed := by rw [hstep]
  have hrun1 := uploadFolderRun_cons_err env fs domain ex cwd local_path remote_root
    fk post .authorizationFailed hkerr
  have hrun2 := uploadFolderRun_cons_err env fs domain ex cwd local_path remote_root
    fk [] .authorizationFailed hkerr
  have happ1 := uploadFolderRun_append_ok env fs domain ex cwd local_path remote_root
    pre (fk :: post) hpre
  have happ2 := uploadFolderRun_append_ok env fs domain ex cwd local_path remote_root
    pre [fk] hpre
  refine ⟨?_, ?_, ?_⟩
  · rw [happ1, happ2, hrun1, hrun2]
  · rw [happ1, hrun1]
  · intro f hf
    rw [happ1]
    exact List.mem_append_left _
      (mem_run_of_mem_ok env fs domain ex cwd local_path remote_root pre hpre f hf)

/-- Witness environment whose server reports every path as existing and
answers 401 exactly for the upload URL of the file `f3`. -/
def wEnvAuth : Env :=
  ⟨fun _ => .null,
   fun r => if r.urlPath = ["https:", "", "h", "dst", "r", "f3"] then 401 else 200⟩

/-- Witness for C2: five files, the third one's upload gets 401; the run
equals the run over the first three files only, ends with the error, and
holds the upload outcomes of the first two. -/
theorem upload_folder_halts_on_authorization_error_w :
    uploadFolderRun wEnvAuth wFsSmall "h" "skip" ["", "home"] ["", "r"] ["", "dst", "r"]
      ([["", "r", "f1"], ["", "r", "f2"]] ++ ["", "r", "f3"] ::
        [["", "r", "f4"], ["", "r", "f5"]]) =
      uploadFolderRun wEnvAuth wFsSmall "h" "skip" ["", "home"] ["", "r"] ["", "dst", "r"]
        ([["", "r", "f1"], ["", "r", "f2"]] ++ [["", "r", "f3"]]) ∧
    (uploadFolderRun wEnvAuth wFsSmall "h" "skip" ["", "home"] ["", "r"] ["", "dst", "r"]
      ([["", "r", "f1"], ["", "r", "f2"]] ++ ["", "r", "f3"] ::
        [["", "r", "f4"], ["", "r", "f5"]])).2 = .error .authorizationFailed ∧
    ∀ f ∈ [["", "r", "f1"], ["", "r", "f2"]],
      .putReq (uploadReqOf wFsSmall "h" f
          (remoteDirFor ["", "home"] ["", "r"] ["", "dst", "r"] f) "skip")
        (wEnvAuth.put (uploadReqOf wFsSmall "h" f
          (remoteDirFor ["", "home"] ["", "r"] ["", "dst", "r"] f) "skip")) ∈
      (uploadFolderRun wEnvAuth wFsSmall "h" "skip" ["", "home"] ["", "r"] ["", "dst", "r"]
        ([["", "r", "f1"], ["", "r", "f2"]] ++ ["", "r", "f3"] ::
          [["", "r", "f4"], ["", "r", "f5"]])).1 :=
  upload_folder_halts_on_authorization_error wEnvAuth wFsSmall "h" "skip"
    ["", "home"] ["", "r"] ["", "dst", "r"]
    [["", "r", "f1"], ["", "r", "f2"]] [["", "r", "f4"], ["", "r", "f5"]] ["", "r", "f3"]
    (by decide) rfl rfl rfl (Or.inr rfl) (by decide)

/-- In a trace, every upload request is preceded by a successful existence
check of the directory its URL targets. -/
def uploadPreceded (domain : String) (tr : List REvent) : Prop :=
  ∀ t1 t2 req st, tr = t1 ++ .putReq req st :: t2 →
    ∃ d f, REvent.existsCheck d true ∈ t1 ∧ req.urlPath = uploadUrlFor domain d f

lemma uploadPreceded_append (domain : String) (a b : List REvent)
    (ha : uploadPreceded domain a) (hb : uploadPreceded domain b) :
    uploadPreceded domain (a ++ b) := by
  intro t1 t2 req st h
  rcases List.append_eq_append_iff.mp h with ⟨a2, ha2, hb2⟩ | ⟨c2, hc2, hb2⟩
  · obtain ⟨d, f, hin, hurl⟩ := hb a2 t2 req st hb2
    exact ⟨d, f, by rw [ha2]; exact List.mem_append_right a hin, hurl⟩
  · cases c2 with
    | nil =>
      obtain ⟨d, f, hin, _⟩ := hb [] t2 req st (by simpa using hb2.symm)
      exact absurd hin (List.not_mem_nil _)
    | cons ev c3 =>
      rw [List.cons_append] at hb2
      obtain ⟨hev, ht2⟩ := List.cons.inj hb2
      obtain ⟨d, f, hin, hurl⟩ := ha t1 c3 req st (by rw [hc2, hev])
      exact ⟨d, f, hin, hurl⟩

lemma uploadPreceded_single_exists (domain : String) (p : List String) (b : Bool) :
    uploadPreceded domain [REvent.existsCheck p b] := by
  intro t1 t2 req st h
  cases t1 with
  | nil => simp at h
  | cons x xs =>
    have := congrArg List.length h
    simp at this

lemma uploadPreceded_pair (domain : String) (d : List String) (req : PutRequest) (st : Nat)
    (f : List String) (hurl : req.urlPath = uploadUrlFor domain d f) :
    uploadPreceded domain [REvent.existsCheck d true, .putReq req st] := by
  intro t1 t2 r s h
  cases t1 with
  | nil => simp at h
  | cons x xs =>
    cases xs with
    | nil =>
      obtain ⟨hx, h2⟩ := List.cons.inj h
      obtain ⟨hput, _⟩ := List.cons.inj h2
      refine ⟨d, f, ?_, ?_⟩
      · rw [← hx]
        simp
      · cases hput
        exact hurl
    | cons y ys =>
      have := congrArg List.length h
      simp at this

lemma uploadFolderStep_trace_shape (env : Env) (fs : LocalFS) (domain ex : String)
    (cwd local_path remote_root f : List String) :
    (uploadFolderStep env fs domain ex cwd local_path remote_root f).1 =
      [.existsCheck (remoteDirFor cwd local_path remote_root f)
        (detailNeFalse (env.detail (remoteDirFor cwd local_path remote_root f)))] ∨
    ((uploadFolderStep env fs domain ex cwd local_path remote_root f).1 =
      [.existsCheck (remoteDirFor cwd local_path remote_root f) true,
       .putReq (uploadReqOf fs domain f (remoteDirFor cwd local_path remote_root f) ex)
         (env.put (uploadReqOf fs domain f (remoteDirFor cwd local_path remote_root f) ex))] ∧
     detailNeFalse (env.detail (remoteDirFor cwd local_path remote_root f)) = true) := by
  unfold uploadFolderStep
  by_cases hd : (existsModel env (remoteDirFor cwd local_path remote_root f)).1 = true
  · rw [if_neg (by simpa using hd)]
    have hd2 : detailNeFalse (env.detail (remoteDirFor cwd local_path remote_root f)) = true :=
      hd
    cases hur : (uploadFileM env fs domain f (remoteDirFor cwd local_path remote_root f) ex).2
      with
    | error e =>
      dsimp only
      rcases uploadFileM_trace_shape env fs domain f (remoteDirFor cwd local_path remote_root f)
        ex with hsh | hsh
      · rw [hsh]
        left
        simp [existsModel]
      · rw [hsh]
        right
        refine ⟨?_, hd2⟩
        simp [existsModel, hd2]
    | ok v =>
      dsimp only
      rw [uploadFileM_trace_of_ok env fs domain f (remoteDirFor cwd local_path remote_root f)
        ex v hur]
      right
      refine ⟨?_, hd2⟩
      simp [existsModel, hd2]
  · rw [if_pos (by simpa using hd)]
    left
    rfl

lemma uploadPreceded_step (env : Env) (fs : LocalFS) (domain ex : String)
    (cwd local_path remote_root f : List String) :
    uploadPreceded domain (uploadFolderStep env fs domain ex cwd local_path remote_root f).1 := by
  rcases uploadFolderStep_trace_shape env fs domain ex cwd local_path remote_root f with
    h | ⟨h, _⟩
  · rw [h]
    exact uploadPreceded_single_exists domain _ _
  · rw [h]
    exact uploadPreceded_pair domain (remoteDirFor cwd local_path remote_root f)
      (uploadReqOf fs domain f (remoteDirFor cwd local_path remote_root f) ex)
      (env.put (uploadReqOf fs domain f (remoteDirFor cwd local_path remote_root f) ex)) f
      (uploadReqOf_urlPath fs domain f (remoteDirFor cwd local_path remote_root f) ex)

lemma uploadPreceded_run (env : Env) (fs : LocalFS) (domain ex : String)
    (cwd local_path remote_root : List String) (files : List (List String)) :
    uploadPreceded domain
      (uploadFolderRun env fs domain ex cwd local_path remote_root files).1 := by
  induction files with
  | nil =>
    intro t1 t2 req st h
    simp [uploadFolderRun] at h
  | cons f rest ih =>
    cases hst : (uploadFolderStep env fs domain ex cwd local_path remote_root f).2 with
    | some e =>
      rw [uploadFolderRun_cons_err env fs domain ex cwd local_path remote_root f rest e hst]
      exact uploadPreceded_step env fs domain ex cwd local_path remote_root f
    | none =>
      rw [uploadFolderRun_cons_ok env fs domain ex cwd local_path remote_root f rest hst]
      exact uploadPreceded_append domain _ _
        (uploadPreceded_step env fs domain ex cwd local_path remote_root f) ih

lemma existsCheck_mem_step_reflects (env : Env) (fs : LocalFS) (domain ex : String)
    (cwd local_path remote_root f : List String) (p : List String) (b : Bool)
    (h : REvent.existsCheck p b ∈
      (uploadFolderStep env fs domain ex cwd local_path remote_root f).1) :
    b = detailNeFalse (env.detail p) := by
  rcases uploadFolderStep_trace_shape env fs domain ex cwd local_path remote_root f with
    hsh | ⟨hsh, hd⟩
  · rw [hsh] at h
    simp at h
    rw [h.1, h.2]
  · rw [hsh] at h
    simp at h
    rw [h.1, h.2]
    exact hd.symm

lemma existsCheck_mem_run_reflects (env : Env) (fs : LocalFS) (domain ex : String)
    (cwd local_path remote_root : List String) (files : List (List String))
    (p : List String) (b : Bool)
    (h : REvent.existsCheck p b ∈
      (uploadFolderRun env fs domain ex cwd local_path remote_root files).1) :
    b = detailNeFalse (env.detail p) := by
  induction files with
  | nil => simp [uploadFolderRun] at h
  | cons f rest ih =>
    cases hst : (uploadFolderStep env fs domain ex cwd local_path remote_root f).2 with
    | some e =>
      rw [uploadFolderRun_cons_err env fs domain ex cwd local_path remote_root f rest e hst] at h
      exact existsCheck_mem_step_reflects env fs domain ex cwd local_path remote_root f p b h
    | none =>
      rw [uploadFolderRun_cons_ok env fs domain ex cwd local_path remote_root f rest hst] at h
      rcases List.mem_append.mp h with h2 | h2
      · exact existsCheck_mem_step_reflects env fs domain ex cwd local_path remote_root f p b h2
      · exact ih h2

/-- C9: in every folder-upload run, an upload request for a file appears in
the trace only after a successful existence check of the remote directory
its URL targets, and — when the remote's existence answers are closed under
ancestors, as on a real filesystem — every ancestor prefix of that directory
is reported as already existing.  (When the directory does not exist, the
loop raises `TypeError` on its `create_folder(…, cookies)` call before any
upload, so no upload is ever issued with an unensured ancestor chain.) -/
theorem no_upload_before_directory_ensured
    (env : Env) (fs : LocalFS) (domain ex : String)
    (cwd local_path remote_root : List String) (files : List (List String))
    (hcoh : ∀ p q : List String, q <+: p → detailNeFalse (env.detail p) = true →
      detailNeFalse (env.detail q) = true)
    (t1 t2 : List REvent) (req : PutRequest) (st : Nat)
    (hsplit : (uploadFolderRun env fs domain ex cwd local_path remote_root files).1 =
      t1 ++ .putReq req st :: t2) :
    ∃ d f, REvent.existsCheck d true ∈ t1 ∧ req.urlPath = uploadUrlFor domain d f ∧
      detailNeFalse (env.detail d) = true ∧
      ∀ q, q <+: d → detailNeFalse (env.detail q) = true := by
  obtain ⟨d, f, hmem, hurl⟩ :=
    uploadPreceded_run env fs domain ex cwd local_path remote_root files t1 t2 req st hsplit
  have hd : detailNeFalse (env.detail d) = true := by
    have hmem2 : REvent.existsCheck d true ∈
        (uploadFolderRun env fs domain ex cwd local_path remote_root files).1 := by
      rw [hsplit]
      exact List.mem_append_left _ hmem
    exact (existsCheck_mem_run_reflects env fs domain ex cwd local_path remote_root files
      d true hmem2).symm
  exact ⟨d, f, hmem, hurl, hd, fun q hq => hcoh d q hq hd⟩

/-- Witness for C9: a one-file run; the upload request is preceded by the
successful existence check of `/dst/r`. -/
theorem no_upload_before_directory_ensured_w :
    ∃ d f, REvent.existsCheck d true ∈
      [REvent.existsCheck (remoteDirFor ["", "home"] ["", "r"] ["", "dst", "r"]
        ["", "r", "f1"]) true] ∧
      (uploadReqOf wFsSmall "h" ["", "r", "f1"]
        (remoteDirFor ["", "home"] ["", "r"] ["", "dst", "r"] ["", "r", "f1"]) "skip").urlPath =
        uploadUrlFor "h" d f ∧
      detailNeFalse (wEnv.detail d) = true ∧
      ∀ q, q <+: d → detailNeFalse (wEnv.detail q) = true :=
  no_upload_before_directory_ensured wEnv wFsSmall "h" "skip"
    ["", "home"] ["", "r"] ["", "dst", "r"] [["", "r", "f1"]]
    (fun _ _ _ _ => rfl)
    [REvent.existsCheck (remoteDirFor ["", "home"] ["", "r"] ["", "dst", "r"]
      ["", "r", "f1"]) true] []
    (uploadReqOf wFsSmall "h" ["", "r", "f1"]
      (remoteDirFor ["", "home"] ["", "r"] ["", "dst", "r"] ["", "r", "f1"]) "skip")
    (wEnv.put (uploadReqOf wFsSmall "h" ["", "r", "f1"]
      (remoteDirFor ["", "home"] ["", "r"] ["", "dst", "r"] ["", "r", "f1"]) "skip"))
    (by decide)

end HfsApi
